import Mathlib

/-!
Verification development for the crownsegmentr AMS3D core (C++ headers under
`include/`: `spatial_types.h`, `spatial_raster.h`, `spatial_index_creation.h`,
`spatial_util.h`, `ams3d.h`).

The C++ `coordinate_t`/`distance_t` type is IEEE-754 `double`.  The shallow
embedding models a double as an exact rational together with the three
non-finite values `+inf`, `-inf` and `NaN`; arithmetic and comparisons follow
the IEEE rules for these special values (comparisons involving NaN are false,
NaN propagates through arithmetic, `inf - inf = NaN`, `0 * inf = NaN`).
Rounding of finite results is not modelled: the claims under verification are
about control flow, special-value handling and exact index arithmetic, none of
which depend on rounding.
-/

namespace spatial

/-- Model of the C++ `coordinate_t = double`: an exact rational value or one of
the IEEE non-finite values. -/
inductive Coord : Type where
  | fin (q : ℚ)
  | pinf
  | ninf
  | nan
  deriving DecidableEq, Repr

instance : Inhabited Coord := ⟨Coord.nan⟩

/-- `std::isnan` on the model. -/
def Coord.isNaN : Coord → Bool
  | .nan => true
  | _ => false

/-- `std::isfinite` on the model. -/
def Coord.isFinite : Coord → Bool
  | .fin _ => true
  | _ => false

/-- IEEE negation. -/
def Coord.neg : Coord → Coord
  | .fin q => .fin (-q)
  | .pinf => .ninf
  | .ninf => .pinf
  | .nan => .nan

/-- IEEE addition (NaN propagates; `inf + (-inf) = NaN`). -/
def Coord.add : Coord → Coord → Coord
  | .nan, _ => .nan
  | _, .nan => .nan
  | .pinf, .ninf => .nan
  | .ninf, .pinf => .nan
  | .pinf, _ => .pinf
  | _, .pinf => .pinf
  | .ninf, _ => .ninf
  | _, .ninf => .ninf
  | .fin a, .fin b => .fin (a + b)

/-- IEEE subtraction, `a - b = a + (-b)`. -/
def Coord.sub (a b : Coord) : Coord := a.add b.neg

/-- IEEE multiplication (NaN propagates; `0 * inf = NaN`; infinities follow
the sign rule). -/
def Coord.mul : Coord → Coord → Coord
  | .nan, _ => .nan
  | _, .nan => .nan
  | .pinf, .pinf => .pinf
  | .pinf, .ninf => .ninf
  | .ninf, .pinf => .ninf
  | .ninf, .ninf => .pinf
  | .pinf, .fin b => if b = 0 then .nan else if 0 < b then .pinf else .ninf
  | .ninf, .fin b => if b = 0 then .nan else if 0 < b then .ninf else .pinf
  | .fin a, .pinf => if a = 0 then .nan else if 0 < a then .pinf else .ninf
  | .fin a, .ninf => if a = 0 then .nan else if 0 < a then .ninf else .pinf
  | .fin a, .fin b => .fin (a * b)

/-- IEEE `<`: any comparison involving NaN is false. -/
def Coord.clt : Coord → Coord → Bool
  | .nan, _ => false
  | _, .nan => false
  | .ninf, .ninf => false
  | .ninf, _ => true
  | .fin _, .ninf => false
  | .fin a, .fin b => decide (a < b)
  | .fin _, .pinf => true
  | .pinf, _ => false

/-- IEEE `<=`: any comparison involving NaN is false. -/
def Coord.cle : Coord → Coord → Bool
  | .nan, _ => false
  | _, .nan => false
  | .ninf, _ => true
  | .fin _, .ninf => false
  | .fin a, .fin b => decide (a ≤ b)
  | .fin _, .pinf => true
  | .pinf, .pinf => true
  | .pinf, _ => false

/-- The rational value of a finite coordinate (junk value 0 on non-finite
input; only ever used behind finiteness guards that mirror the C++ control
flow, where the C++ behavior on non-finite input would be undefined). -/
def Coord.toQ : Coord → ℚ
  | .fin q => q
  | _ => 0

/-- Model of `spatial::point_3d_t`. -/
structure point_3d_t where
  x : Coord
  y : Coord
  z : Coord
  deriving DecidableEq, Repr

/-- Model of `spatial::point_2d_t`. -/
structure point_2d_t where
  x : Coord
  y : Coord
  deriving DecidableEq, Repr

/-- `spatial::has_non_finite_coordinate_value` (`spatial_util.h`): z is tested
first, then x, then y. -/
def has_non_finite_coordinate_value (p : point_3d_t) : Bool :=
  !p.z.isFinite || !p.x.isFinite || !p.y.isFinite

/-- `spatial::nan_point` (`spatial_util.h`). -/
def nan_point : point_3d_t := ⟨.nan, .nan, .nan⟩

/-- `spatial::get_xy_point` (`spatial_util.h`). -/
def get_xy_point (p : point_3d_t) : point_2d_t := ⟨p.x, p.y⟩

/-- `boost::geometry::comparable_distance` for 2D cartesian points: the
squared euclidean distance. -/
def comparable_distance_2d (a b : point_2d_t) : Coord :=
  ((a.x.sub b.x).mul (a.x.sub b.x)).add ((a.y.sub b.y).mul (a.y.sub b.y))

/-- `boost::geometry::comparable_distance` for 3D cartesian points: the
squared euclidean distance. -/
def comparable_distance_3d (a b : point_3d_t) : Coord :=
  (((a.x.sub b.x).mul (a.x.sub b.x)).add ((a.y.sub b.y).mul (a.y.sub b.y))).add
    ((a.z.sub b.z).mul (a.z.sub b.z))

/-- Model of `spatial::_within_xy_distance_functor` (`spatial_util.h`): the
stored fields `_xy_point` and `_comparable_distance`. -/
structure within_xy_distance_functor where
  xy_point : point_2d_t
  comparable_distance : Coord
  deriving Repr

/-- The `_within_xy_distance_functor` constructor: stores the comparable
distance between `(0, 0)` and `(0, distance)`. -/
def mk_within_xy_distance_functor (xy_point : point_2d_t) (distance : Coord) :
    within_xy_distance_functor :=
  ⟨xy_point, comparable_distance_2d ⟨.fin 0, .fin 0⟩ ⟨.fin 0, distance⟩⟩

/-- `_within_xy_distance_functor::operator()`: accepts a 3D point iff the
comparable (squared) distance from its xy-projection to the stored xy-point is
at most the stored comparable distance. -/
def within_xy_distance_functor.apply (f : within_xy_distance_functor)
    (p : point_3d_t) : Bool :=
  Coord.cle (comparable_distance_2d (get_xy_point p) f.xy_point)
    f.comparable_distance

/-- Error kinds raised by raster operations (`spatial_raster.h` throws
`std::runtime_error` / `std::out_of_range` with distinguishing messages; the
spec names them ShapeMismatch, InvalidCoordinate and OutOfExtent). -/
inductive RasterError : Type where
  | shapeMismatch
  | invalidCoordinate
  | outOfExtent
  deriving DecidableEq, Repr

/-- Model of `spatial::Raster< T_value >` (`spatial_raster.h`): a rectangular,
non-rotated raster whose values go from top left to bottom right, row-wise.
The C++ constructor stores `_row_height` and `_col_width` computed from the
other fields; here they are the derived functions `row_height`/`col_width`
below, which agree with the constructor on every raster. -/
structure Raster (α : Type) where
  values : List α
  num_rows : ℕ
  num_cols : ℕ
  x_min : ℚ
  x_max : ℚ
  y_min : ℚ
  y_max : ℚ
  deriving DecidableEq, Repr

/-- `_row_height{ (_y_max - _y_min) / _num_rows }`. -/
def Raster.row_height {α : Type} (r : Raster α) : ℚ :=
  (r.y_max - r.y_min) / (r.num_rows : ℚ)

/-- `_col_width{ (_x_max - _x_min) / _num_cols }`. -/
def Raster.col_width {α : Type} (r : Raster α) : ℚ :=
  (r.x_max - r.x_min) / (r.num_cols : ℚ)

/-- `Raster::copy_w_new_values`: throws when the new value vector's size
differs from the stored one, otherwise an identical raster carrying the new
values. -/
def Raster.copy_w_new_values {α : Type} (r : Raster α) (new_values : List α) :
    Except RasterError (Raster α) :=
  if new_values.length ≠ r.values.length then
    .error .shapeMismatch
  else
    .ok ⟨new_values, r.num_rows, r.num_cols, r.x_min, r.x_max, r.y_min, r.y_max⟩

/-- `Raster::has_value_at_xy_of`: `_x_min <= x && x <= _x_max && _y_min <= y
&& y <= _y_max` with IEEE comparisons (false on NaN). -/
def Raster.has_value_at_xy_of {α : Type} (r : Raster α) (p : point_3d_t) : Bool :=
  Coord.cle (.fin r.x_min) p.x && Coord.cle p.x (.fin r.x_max) &&
  Coord.cle (.fin r.y_min) p.y && Coord.cle p.y (.fin r.y_max)

/-- The flat index `_num_cols * row_index + col_index` computed by
`Raster::no_throw_value_at_xy_of` for finite coordinates `x`, `y`: the C++
`static_cast< std::size_t >` truncates the nonnegative quotients (behavior on
negative quotients is undefined in C++; `Int.toNat` of the floor is a total
extension), and an index equal to the row/column count is decremented by
one. -/
def Raster.flat_index_of {α : Type} (r : Raster α) (x y : ℚ) : ℕ :=
  let row_index0 : ℕ := (⌊(r.y_max - y) / r.row_height⌋).toNat
  let row_index : ℕ := if row_index0 = r.num_rows then row_index0 - 1 else row_index0
  let col_index0 : ℕ := (⌊(x - r.x_min) / r.col_width⌋).toNat
  let col_index : ℕ := if col_index0 = r.num_cols then col_index0 - 1 else col_index0
  r.num_cols * row_index + col_index

/-- `Raster::no_throw_value_at_xy_of` for finite coordinates: indexes
`_values` at the flat index (an out-of-range access is undefined behavior in
C++; `List.getD` with the default value is a total extension). -/
def Raster.no_throw_value_at_xy_of {α : Type} [Inhabited α] (r : Raster α)
    (x y : ℚ) : α :=
  r.values.getD (r.flat_index_of x y) default

/-- `Raster::value_at_xy_of`: throws on NaN x or y (checked first), then on a
location outside the raster's extent, otherwise defers to
`no_throw_value_at_xy_of`. -/
def Raster.value_at_xy_of {α : Type} [Inhabited α] (r : Raster α)
    (p : point_3d_t) : Except RasterError α :=
  if p.x.isNaN || p.y.isNaN then
    .error .invalidCoordinate
  else if !r.has_value_at_xy_of p then
    .error .outOfExtent
  else
    .ok (r.no_throw_value_at_xy_of p.x.toQ p.y.toQ)

/-- Model of the `spatial::I_Raster< T_value >` interface with its two
implementations: the full grid `spatial::Raster` and
`spatial::Single_value_pseudo_raster` (which stores one value `_value` and
`_values = {value}`). -/
inductive IRaster (α : Type) : Type where
  | grid (r : Raster α)
  | single (value : α)
  deriving DecidableEq, Repr

/-- `values()` of either implementation: the grid's vector, or the singleton
vector of the pseudo raster. -/
def IRaster.values {α : Type} : IRaster α → List α
  | .grid r => r.values
  | .single v => [v]

/-- `copy_w_new_values` of either implementation: the pseudo raster throws
unless exactly one new value is supplied. -/
def IRaster.copy_w_new_values {α : Type} [Inhabited α] :
    IRaster α → List α → Except RasterError (IRaster α)
  | .grid r, new_values => (r.copy_w_new_values new_values).map .grid
  | .single _, new_values =>
    if new_values.length ≠ 1 then
      .error .shapeMismatch
    else
      .ok (.single (new_values.getD 0 default))

/-- `has_value_at_xy_of` of either implementation: the pseudo raster answers
true everywhere. -/
def IRaster.has_value_at_xy_of {α : Type} : IRaster α → point_3d_t → Bool
  | .grid r, p => r.has_value_at_xy_of p
  | .single _, _ => true

/-- `no_throw_value_at_xy_of` of either implementation (finite coordinates):
the pseudo raster returns its single value unconditionally. -/
def IRaster.no_throw_value_at_xy_of {α : Type} [Inhabited α] :
    IRaster α → ℚ → ℚ → α
  | .grid r, x, y => r.no_throw_value_at_xy_of x y
  | .single v, _, _ => v

/-- `value_at_xy_of` of either implementation: the pseudo raster returns its
single value unconditionally. -/
def IRaster.value_at_xy_of {α : Type} [Inhabited α] :
    IRaster α → point_3d_t → Except RasterError α
  | .grid r, p => r.value_at_xy_of p
  | .single v, _ => .ok v

/-- `_Finite_points_above_height_iterator::_skip_current_point`
(`spatial_index_creation.h`): skip points with a non-finite coordinate value
and points whose z lies below the minimum height. -/
def Finite_points_above_height_skip (min_height : ℚ) (p : point_3d_t) : Bool :=
  if has_non_finite_coordinate_value p then true
  else Coord.clt p.z (.fin min_height)

/-- The sequence of points yielded by a full traversal of the
`_Finite_points_above_height_iterator` from `cbegin` to `cend`: the iterator
advances past every element on which `_skip_current_point` holds and yields
exactly the others, in order. -/
def finite_points_above_height (points : List point_3d_t) (min_height : ℚ) :
    List point_3d_t :=
  points.filter (fun p => !Finite_points_above_height_skip min_height p)

/-- `_Finite_points_above_ground_iterator::_skip_current_point`: skip points
with a non-finite coordinate value, then compute the point's height above
ground (absolute z minus the ground height under the point) and skip when that
height is non-finite or below the minimum height above ground. -/
def Finite_points_above_ground_skip (min_height_above_ground : ℚ)
    (ground_height_grid : Raster Coord) (p : point_3d_t) : Bool :=
  if has_non_finite_coordinate_value p then true
  else
    let point_height_above_ground : Coord :=
      p.z.sub (ground_height_grid.no_throw_value_at_xy_of p.x.toQ p.y.toQ)
    !point_height_above_ground.isFinite ||
      Coord.clt point_height_above_ground (.fin min_height_above_ground)

/-- The sequence of points yielded by a full traversal of the
`_Finite_points_above_ground_iterator`. -/
def finite_points_above_ground (points : List point_3d_t)
    (min_height_above_ground : ℚ) (ground_height_grid : Raster Coord) :
    List point_3d_t :=
  points.filter
    (fun p => !Finite_points_above_ground_skip min_height_above_ground
      ground_height_grid p)

/-- `_Finite_points_above_height_grid_iterator::_skip_current_point`: skip
points with a non-finite coordinate value, then skip wherever the ground
height or the minimum above-ground height is non-finite and where the point's
above-ground height lies below the minimum above-ground height read from the
grid. -/
def Finite_points_above_height_grid_skip
    (min_height_above_ground_grid : IRaster Coord)
    (ground_height_grid : IRaster Coord) (p : point_3d_t) : Bool :=
  if has_non_finite_coordinate_value p then true
  else
    let point_height_above_ground : Coord :=
      p.z.sub (ground_height_grid.no_throw_value_at_xy_of p.x.toQ p.y.toQ)
    let min_height_above_ground : Coord :=
      min_height_above_ground_grid.no_throw_value_at_xy_of p.x.toQ p.y.toQ
    !point_height_above_ground.isFinite ||
      !min_height_above_ground.isFinite ||
      Coord.clt point_height_above_ground min_height_above_ground

/-- The sequence of points yielded by a full traversal of the
`_Finite_points_above_height_grid_iterator`. -/
def finite_points_above_height_grid (points : List point_3d_t)
    (min_height_above_ground_grid : IRaster Coord)
    (ground_height_grid : IRaster Coord) : List point_3d_t :=
  points.filter
    (fun p => !Finite_points_above_height_grid_skip
      min_height_above_ground_grid ground_height_grid p)

end spatial

namespace ams3d

/-- `ams3d::_math_functions::gaussian_gamma` (`ams3d.h`). -/
def gaussian_gamma : ℝ := -5

/-- `ams3d::_math_functions::gauss_unsquared`: the gaussian function
`f(x) = exp(gaussian_gamma * x^2)` but without squaring x. -/
noncomputable def gauss_unsquared (x : ℝ) : ℝ := Real.exp (gaussian_gamma * x)

/-- `ams3d::_math_functions::epanechnikov_unsquared`: the epanechnikov
function `f(x) = 1 - x^2` but without squaring x. -/
def epanechnikov_unsquared (x : ℝ) : ℝ := 1 - x

/-- `ams3d::_Kernel::bottom_height_above_ground_with` (`ams3d.h`): the
above-ground height of a kernel's bottom side given the height of the point
around which the kernel is constructed and a crown height to tree height
ratio; negative results are clamped to 0.  IEEE `0.25` is an exact power of
two, so the multiplication is exact and the rational embedding is faithful. -/
def Kernel.bottom_height_above_ground_with (point_height_above_ground : ℚ)
    (crown_height_to_tree_height : ℚ) : ℚ :=
  let bottom_height_above_ground : ℚ :=
    point_height_above_ground -
      point_height_above_ground * crown_height_to_tree_height * (1 / 4)
  if bottom_height_above_ground < 0 then 0 else bottom_height_above_ground

/-- `ams3d::_Kernel::bottom_height_above_ground_grid_with` (`ams3d.h`): maps
a lambda (which repeats the formula of `bottom_height_above_ground_with`
verbatim, as the C++ does) over the ratio grid's values and copies the grid
with the transformed values. -/
def Kernel.bottom_height_above_ground_grid_with
    (point_height_above_ground : ℚ)
    (crown_height_to_tree_height_grid : spatial.IRaster ℚ) :
    Except spatial.RasterError (spatial.IRaster ℚ) :=
  let bottom_heights : List ℚ :=
    crown_height_to_tree_height_grid.values.map
      (fun crown_height_to_tree_height =>
        let bottom_height_above_ground : ℚ :=
          point_height_above_ground -
            point_height_above_ground * crown_height_to_tree_height * (1 / 4)
        if bottom_height_above_ground < 0 then 0 else bottom_height_above_ground)
  crown_height_to_tree_height_grid.copy_w_new_values bottom_heights

/-- Modelled from the spec: the bodies of `ams3d::calculate_a_single_mode` and
`ams3d::calculate_a_single_mode_plus_centroids` are not among the repository's
source files — only their declarations and documentation in `ams3d.h` are.
This single step of the mean-shift iteration (spec 4.5/4.6: build a kernel
around the current center with the candidate's canopy ratios, query the index,
return the weighted centroid, or no result when the query is empty or the
total weight is zero) is therefore abstracted as a function parameter
`centroid_step` of the driver model; the claims under verification quantify
over it. -/
def CentroidStep : Type := spatial.point_3d_t → Option spatial.point_3d_t

/-- Modelled from the spec: the iteration loop of spec 4.6, steps 1–6.
`fuel` is the number of centroids that may still be computed (initially
`max_num_centroids_per_mode`); `first` records whether no centroid has been
computed yet; `trace` accumulates the centroids in reverse.  A degenerate
step returns the previous center as mode (or the NaN-point on the very first
step); convergence is tested with comparable (squared) distances, which is
equivalent to `euclidean_distance <= eps` for `eps >= 0`. -/
def mean_shift_loop (centroid_step : CentroidStep) (eps : ℚ) :
    ℕ → spatial.point_3d_t → Bool → List spatial.point_3d_t →
    spatial.point_3d_t × List spatial.point_3d_t
  | 0, s, _, trace => (s, trace.reverse)
  | fuel + 1, s, first, trace =>
    match centroid_step s with
    | none => (if first then spatial.nan_point else s, trace.reverse)
    | some s1 =>
      if spatial.Coord.cle (spatial.comparable_distance_3d s1 s) (.fin (eps * eps)) then
        (s1, (s1 :: trace).reverse)
      else if fuel = 0 then
        (s1, (s1 :: trace).reverse)
      else
        mean_shift_loop centroid_step eps fuel s1 false (s1 :: trace)

/-- Modelled from the spec: `ams3d::calculate_a_single_mode_plus_centroids`
(normalized-heights variant, `ams3d.h` lines 105–124).  Per its documentation,
if any coordinate value of the point is non-finite or the point lies below
`min_point_height_above_ground`, the function returns a point with NaN
coordinate values paired with an empty centroid vector; otherwise it runs the
mean-shift iteration of spec 4.6. -/
def calculate_a_single_mode_plus_centroids (centroid_step : CentroidStep)
    (point : spatial.point_3d_t) (min_point_height_above_ground : ℚ)
    (centroid_convergence_distance : ℚ) (max_num_centroids_per_mode : ℕ) :
    spatial.point_3d_t × List spatial.point_3d_t :=
  if spatial.has_non_finite_coordinate_value point ||
      spatial.Coord.clt point.z (.fin min_point_height_above_ground) then
    (spatial.nan_point, [])
  else
    mean_shift_loop centroid_step centroid_convergence_distance
      max_num_centroids_per_mode point true []

/-- Modelled from the spec: `ams3d::calculate_a_single_mode`
(normalized-heights variant, `ams3d.h` lines 89–103): same as
`calculate_a_single_mode_plus_centroids` but returning only the mode. -/
def calculate_a_single_mode (centroid_step : CentroidStep)
    (point : spatial.point_3d_t) (min_point_height_above_ground : ℚ)
    (centroid_convergence_distance : ℚ) (max_num_centroids_per_mode : ℕ) :
    spatial.point_3d_t :=
  (calculate_a_single_mode_plus_centroids centroid_step point
    min_point_height_above_ground centroid_convergence_distance
    max_num_centroids_per_mode).1

/-- A trivial centroid step (every query degenerate); used to instantiate
theorems that quantify over the abstracted centroid computation. -/
def degenerate_centroid_step : CentroidStep := fun _ => none

end ams3d

/-!  Theorems. -/

/-- C3: for every above-ground height h and crown_height_to_tree_height
ratio r, `_Kernel::bottom_height_above_ground_with(h, r)` equals
`max(0, h − (h·r)/4)`, i.e. the candidate's above-ground height minus one
quarter of the full kernel height `H = h·r`, clamped below at ground
level 0. -/
theorem kernel_bottom_height_eq_clamped_quarter (h r : ℚ) :
    ams3d.Kernel.bottom_height_above_ground_with h r = max 0 (h - h * r / 4) := by
  unfold ams3d.Kernel.bottom_height_above_ground_with
  have e : h - h * r * (1 / 4) = h - h * r / 4 := by ring
  rw [e]
  rcases lt_or_le (h - h * r / 4) 0 with hlt | hle
  · rw [if_pos hlt, max_eq_left hlt.le]
  · rw [if_neg (not_lt.mpr hle), max_eq_right hle]

/-- C4: for every real x, `gauss_unsquared(x)` equals `exp(−5·x)` with the
gamma coefficient fixed at −5, and `epanechnikov_unsquared(x)` equals
`1 − x`; hence for squared relative distances the per-point weight factors
are `(1 − s_h)` and `exp(−5·s_v)`. -/
theorem math_profile_functions_eq (x : ℝ) :
    ams3d.gaussian_gamma = -5 ∧
    ams3d.gauss_unsquared x = Real.exp (-5 * x) ∧
    ams3d.epanechnikov_unsquared x = 1 - x := by
  refine ⟨rfl, ?_, rfl⟩
  unfold ams3d.gauss_unsquared ams3d.gaussian_gamma
  norm_num

/-- C7: for every 2D center (cx, cy), every radius ρ, and every finite 3D
point p, the horizontal refinement predicate `_within_xy_distance_functor`
accepts p iff `(p.x − cx)² + (p.y − cy)² ≤ ρ²`; and the stored comparable
distance, computed as the squared distance from (0,0) to (0,ρ), equals
ρ². -/
theorem within_xy_distance_functor_correct (cx cy ρ qx qy qz : ℚ) :
    (spatial.mk_within_xy_distance_functor ⟨.fin cx, .fin cy⟩
        (.fin ρ)).comparable_distance = .fin (ρ ^ 2) ∧
    ((spatial.mk_within_xy_distance_functor ⟨.fin cx, .fin cy⟩
          (.fin ρ)).apply ⟨.fin qx, .fin qy, .fin qz⟩ = true ↔
      (qx - cx) ^ 2 + (qy - cy) ^ 2 ≤ ρ ^ 2) := by
  constructor
  · simp only [spatial.mk_within_xy_distance_functor, spatial.comparable_distance_2d,
      spatial.Coord.sub, spatial.Coord.neg, spatial.Coord.add, spatial.Coord.mul]
    congr 1
    ring
  · simp only [spatial.mk_within_xy_distance_functor,
      spatial.within_xy_distance_functor.apply, spatial.get_xy_point,
      spatial.comparable_distance_2d, spatial.Coord.sub, spatial.Coord.neg,
      spatial.Coord.add, spatial.Coord.mul, spatial.Coord.cle,
      decide_eq_true_eq]
    have e1 : (qx + -cx) * (qx + -cx) + (qy + -cy) * (qy + -cy) =
        (qx - cx) ^ 2 + (qy - cy) ^ 2 := by ring
    have e2 : (0 + -0) * (0 + -0) + (0 + -ρ) * (0 + -ρ) = (ρ : ℚ) ^ 2 := by ring
    rw [e1, e2]

/-- A coordinate is finite exactly when it is a `fin` value. -/
theorem coord_isFinite_iff (c : spatial.Coord) :
    c.isFinite = true ↔ ∃ q, c = .fin q := by
  cases c <;> simp [spatial.Coord.isFinite]

/-- A false IEEE `<` between finite values means `≥`. -/
theorem coord_clt_fin_fin_false {a b : ℚ}
    (h : spatial.Coord.clt (.fin a) (.fin b) = false) : b ≤ a := by
  simp only [spatial.Coord.clt, decide_eq_false_iff_not, not_lt] at h
  exact h

/-- A point with no non-finite coordinate value has `fin` x, y and z. -/
theorem point_finite_of_not_non_finite {p : spatial.point_3d_t}
    (h : spatial.has_non_finite_coordinate_value p = false) :
    (∃ qx, p.x = spatial.Coord.fin qx) ∧ (∃ qy, p.y = spatial.Coord.fin qy) ∧
    (∃ qz, p.z = spatial.Coord.fin qz) := by
  simp only [spatial.has_non_finite_coordinate_value, Bool.or_eq_false_iff,
    Bool.not_eq_false'] at h
  exact ⟨(coord_isFinite_iff _).mp h.1.2, (coord_isFinite_iff _).mp h.2,
    (coord_isFinite_iff _).mp h.1.1⟩

/-- C1: for every candidate point c with at least one non-finite coordinate,
or whose above-ground height is below min_point_height_above_ground,
`calculate_a_single_mode` returns the NaN-point without raising, and
`calculate_a_single_mode_plus_centroids` returns the NaN-point paired with an
empty centroid vector.  (The driver body is modelled from the spec, with the
centroid computation abstracted as `centroid_step`; the statement holds for
every centroid step.) -/
theorem single_mode_invalid_input_nan
    (centroid_step : ams3d.CentroidStep) (p : spatial.point_3d_t)
    (min_h eps : ℚ) (N : ℕ)
    (h : spatial.has_non_finite_coordinate_value p = true ∨
      spatial.Coord.clt p.z (.fin min_h) = true) :
    ams3d.calculate_a_single_mode_plus_centroids centroid_step p min_h eps N =
        (spatial.nan_point, []) ∧
    ams3d.calculate_a_single_mode centroid_step p min_h eps N =
        spatial.nan_point := by
  have hguard : (spatial.has_non_finite_coordinate_value p ||
      spatial.Coord.clt p.z (.fin min_h)) = true := by
    rcases h with h | h <;> simp [h]
  have h1 : ams3d.calculate_a_single_mode_plus_centroids centroid_step p
      min_h eps N = (spatial.nan_point, []) := by
    unfold ams3d.calculate_a_single_mode_plus_centroids
    simp only [hguard, if_true]
  refine ⟨h1, ?_⟩
  unfold ams3d.calculate_a_single_mode
  rw [h1]

/-- Witness for C1: a candidate with NaN x-coordinate, at a concrete
degenerate centroid step. -/
theorem single_mode_invalid_input_nan_witness :
    ams3d.calculate_a_single_mode_plus_centroids ams3d.degenerate_centroid_step
        ⟨spatial.Coord.nan, .fin 0, .fin 10⟩ 0 1 3 = (spatial.nan_point, []) ∧
    ams3d.calculate_a_single_mode ams3d.degenerate_centroid_step
        ⟨spatial.Coord.nan, .fin 0, .fin 10⟩ 0 1 3 = spatial.nan_point :=
  single_mode_invalid_input_nan ams3d.degenerate_centroid_step
    ⟨spatial.Coord.nan, .fin 0, .fin 10⟩ 0 1 3 (Or.inl (by decide))

/-- C2: every point yielded by each of the three filtering iterators (and
hence every point in the index bulk-loaded from them) has all-finite
coordinates and satisfies its minimum-height predicate: z ≥ min_height for
the above-height iterator; finite z − G(p) ≥ min_height_above_ground for the
above-ground iterator; and finite z − G(p) ≥ finite M(p) for the grid
iterator. -/
theorem filtered_iterators_sound
    (points : List spatial.point_3d_t) (min_height min_h_ag : ℚ)
    (G : spatial.Raster spatial.Coord)
    (Mg Gg : spatial.IRaster spatial.Coord) :
    (∀ p ∈ spatial.finite_points_above_height points min_height,
      spatial.has_non_finite_coordinate_value p = false ∧
      ∃ qz, p.z = spatial.Coord.fin qz ∧ min_height ≤ qz) ∧
    (∀ p ∈ spatial.finite_points_above_ground points min_h_ag G,
      spatial.has_non_finite_coordinate_value p = false ∧
      ∃ q, spatial.Coord.sub p.z
          (G.no_throw_value_at_xy_of p.x.toQ p.y.toQ) = spatial.Coord.fin q ∧
        min_h_ag ≤ q) ∧
    (∀ p ∈ spatial.finite_points_above_height_grid points Mg Gg,
      spatial.has_non_finite_coordinate_value p = false ∧
      ∃ q m, spatial.Coord.sub p.z
          (Gg.no_throw_value_at_xy_of p.x.toQ p.y.toQ) = spatial.Coord.fin q ∧
        Mg.no_throw_value_at_xy_of p.x.toQ p.y.toQ = spatial.Coord.fin m ∧
        m ≤ q) := by
  refine ⟨?_, ?_, ?_⟩
  · intro p hp
    rw [spatial.finite_points_above_height, List.mem_filter,
      Bool.not_eq_true'] at hp
    have hskip := hp.2
    cases hnf : spatial.has_non_finite_coordinate_value p with
    | true => simp [spatial.Finite_points_above_height_skip, hnf] at hskip
    | false =>
      simp only [spatial.Finite_points_above_height_skip, hnf,
        Bool.false_eq_true, if_false] at hskip
      obtain ⟨_, _, qz, hz⟩ := point_finite_of_not_non_finite hnf
      rw [hz] at hskip
      exact ⟨rfl, qz, hz, coord_clt_fin_fin_false hskip⟩
  · intro p hp
    rw [spatial.finite_points_above_ground, List.mem_filter,
      Bool.not_eq_true'] at hp
    have hskip := hp.2
    cases hnf : spatial.has_non_finite_coordinate_value p with
    | true => simp [spatial.Finite_points_above_ground_skip, hnf] at hskip
    | false =>
      simp only [spatial.Finite_points_above_ground_skip, hnf,
        Bool.false_eq_true, if_false, Bool.or_eq_false_iff,
        Bool.not_eq_false'] at hskip
      obtain ⟨hfin, hlt⟩ := hskip
      obtain ⟨q, hq⟩ := (coord_isFinite_iff _).mp hfin
      rw [hq] at hlt
      exact ⟨rfl, q, hq, coord_clt_fin_fin_false hlt⟩
  · intro p hp
    rw [spatial.finite_points_above_height_grid, List.mem_filter,
      Bool.not_eq_true'] at hp
    have hskip := hp.2
    cases hnf : spatial.has_non_finite_coordinate_value p with
    | true => simp [spatial.Finite_points_above_height_grid_skip, hnf] at hskip
    | false =>
      simp only [spatial.Finite_points_above_height_grid_skip, hnf,
        Bool.false_eq_true, if_false, Bool.or_eq_false_iff,
        Bool.not_eq_false'] at hskip
      obtain ⟨⟨hfin, hfinm⟩, hlt⟩ := hskip
      obtain ⟨q, hq⟩ := (coord_isFinite_iff _).mp hfin
      obtain ⟨m, hm⟩ := (coord_isFinite_iff _).mp hfinm
      rw [hq, hm] at hlt
      exact ⟨rfl, q, m, hq, hm, coord_clt_fin_fin_false hlt⟩

/-- Witness for C2: a concrete finite point above the minimum height in each
of the three filtered sequences (single-cell rasters with ground height 0 and
minimum height 1). -/
theorem filtered_iterators_sound_witness :
    (spatial.has_non_finite_coordinate_value ⟨.fin 0, .fin 0, .fin 5⟩ = false ∧
      ∃ qz, (spatial.point_3d_t.mk (.fin 0) (.fin 0) (.fin 5)).z =
          spatial.Coord.fin qz ∧ (1 : ℚ) ≤ qz) ∧
    (spatial.has_non_finite_coordinate_value ⟨.fin 0, .fin 0, .fin 5⟩ = false ∧
      ∃ q m, spatial.Coord.sub (spatial.point_3d_t.mk (.fin 0) (.fin 0)
            (.fin 5)).z
          ((spatial.IRaster.single (spatial.Coord.fin 0)).no_throw_value_at_xy_of
            (spatial.point_3d_t.mk (.fin 0) (.fin 0) (.fin 5)).x.toQ
            (spatial.point_3d_t.mk (.fin 0) (.fin 0) (.fin 5)).y.toQ) =
          spatial.Coord.fin q ∧
        (spatial.IRaster.single (spatial.Coord.fin 1)).no_throw_value_at_xy_of
            (spatial.point_3d_t.mk (.fin 0) (.fin 0) (.fin 5)).x.toQ
            (spatial.point_3d_t.mk (.fin 0) (.fin 0) (.fin 5)).y.toQ =
          spatial.Coord.fin m ∧ m ≤ q) :=
  ⟨((filtered_iterators_sound [⟨.fin 0, .fin 0, .fin 5⟩] 1 1
        ⟨[.fin 0], 1, 1, 0, 1, 0, 1⟩ (.single (.fin 1)) (.single (.fin 0))).1
      ⟨.fin 0, .fin 0, .fin 5⟩ (by decide)),
    ((filtered_iterators_sound [⟨.fin 0, .fin 0, .fin 5⟩] 1 1
        ⟨[.fin 0], 1, 1, 0, 1, 0, 1⟩ (.single (.fin 1)) (.single (.fin 0))).2.2
      ⟨.fin 0, .fin 0, .fin 5⟩ (by
        rw [spatial.finite_points_above_height_grid, List.mem_filter]
        refine ⟨List.mem_singleton.mpr rfl, ?_⟩
        norm_num [spatial.Finite_points_above_height_grid_skip,
          spatial.has_non_finite_coordinate_value, spatial.Coord.isFinite,
          spatial.IRaster.no_throw_value_at_xy_of, spatial.Coord.sub,
          spatial.Coord.neg, spatial.Coord.add, spatial.Coord.clt,
          spatial.Coord.toQ]))⟩

/-- C8: for every grid Raster r and value vector v, `r.copy_w_new_values(v)`
raises exactly when `v.size() ≠ r.values().size()`, and otherwise returns a
raster with the same num_rows, num_cols, x_min, x_max, y_min, y_max carrying
v as its values; for every Single_value_pseudo_raster,
`copy_w_new_values(v)` raises exactly when `v.size() ≠ 1` and otherwise
returns a single-value raster holding `v[0]`. -/
theorem copy_w_new_values_correct {α : Type} [Inhabited α]
    (r : spatial.Raster α) (w : α) (v : List α) :
    (r.copy_w_new_values v = .error .shapeMismatch ↔
      v.length ≠ r.values.length) ∧
    (v.length = r.values.length →
      r.copy_w_new_values v =
        .ok ⟨v, r.num_rows, r.num_cols, r.x_min, r.x_max, r.y_min, r.y_max⟩) ∧
    ((spatial.IRaster.single w).copy_w_new_values v =
        .error .shapeMismatch ↔ v.length ≠ 1) ∧
    (∀ a, v = [a] →
      (spatial.IRaster.single w).copy_w_new_values v = .ok (.single a)) := by
  refine ⟨?_, ?_, ?_, ?_⟩
  · unfold spatial.Raster.copy_w_new_values
    by_cases hl : v.length = r.values.length
    · simp [hl]
    · simp [hl]
  · intro hl
    unfold spatial.Raster.copy_w_new_values
    simp [hl]
  · unfold spatial.IRaster.copy_w_new_values
    by_cases hl : v.length = 1
    · simp [hl]
    · simp [hl]
  · intro a ha
    subst ha
    unfold spatial.IRaster.copy_w_new_values
    simp

/-- Witness for C8: a matching-length copy of a concrete 1×2 raster and a
singleton copy of a concrete pseudo raster. -/
theorem copy_w_new_values_correct_witness :
    ((spatial.Raster.mk [(3 : ℚ), 4] 1 2 0 2 0 1).copy_w_new_values [5, 6] =
      .ok ⟨[5, 6], 1, 2, 0, 2, 0, 1⟩) ∧
    ((spatial.IRaster.single (7 : ℚ)).copy_w_new_values [8] =
      .ok (.single 8)) :=
  ⟨(copy_w_new_values_correct ⟨[(3 : ℚ), 4], 1, 2, 0, 2, 0, 1⟩ 7
      [5, 6]).2.1 rfl,
    (copy_w_new_values_correct ⟨[(3 : ℚ), 4], 1, 2, 0, 2, 0, 1⟩ 7
      [8]).2.2.2 8 rfl⟩

/-- C9: for every above-ground height h and every crown_height_to_tree_height
ratio grid g, `_Kernel::bottom_height_above_ground_grid_with(h, g)` returns a
raster with exactly as many values as g whose values are the elementwise map
of `_Kernel::bottom_height_above_ground_with(h, ·)` over g's values; its
internal `copy_w_new_values` call never hits the shape-mismatch branch. -/
theorem bottom_height_grid_is_elementwise_map (h : ℚ)
    (g : spatial.IRaster ℚ) :
    ∃ out, ams3d.Kernel.bottom_height_above_ground_grid_with h g = .ok out ∧
      out.values = g.values.map
        (fun r => ams3d.Kernel.bottom_height_above_ground_with h r) ∧
      out.values.length = g.values.length := by
  have hfun : (fun crown_height_to_tree_height =>
      let bottom_height_above_ground : ℚ :=
        h - h * crown_height_to_tree_height * (1 / 4)
      if bottom_height_above_ground < 0 then 0 else bottom_height_above_ground) =
      (fun r => ams3d.Kernel.bottom_height_above_ground_with h r) := rfl
  unfold ams3d.Kernel.bottom_height_above_ground_grid_with
  rw [hfun]
  cases g with
  | grid r =>
    refine ⟨.grid ⟨r.values.map
        (fun q => ams3d.Kernel.bottom_height_above_ground_with h q),
      r.num_rows, r.num_cols, r.x_min, r.x_max, r.y_min, r.y_max⟩, ?_, by
        simp [spatial.IRaster.values], by simp [spatial.IRaster.values]⟩
    simp only [spatial.IRaster.copy_w_new_values, spatial.IRaster.values,
      spatial.Raster.copy_w_new_values, List.length_map]
    simp [Except.map]
  | single v =>
    refine ⟨.single (ams3d.Kernel.bottom_height_above_ground_with h v), ?_,
      by simp [spatial.IRaster.values], by simp [spatial.IRaster.values]⟩
    simp [spatial.IRaster.copy_w_new_values, spatial.IRaster.values]

/-- C5: for every grid Raster and every 3D point p, `has_value_at_xy_of(p)`
is true iff (p.x, p.y) lies in the closed rectangle
[x_min, x_max] × [y_min, y_max]; and `value_at_xy_of(p)` raises iff p.x or
p.y is NaN (InvalidCoordinate, checked first) or (p.x, p.y) lies outside
that closed rectangle (OutOfExtent), otherwise it returns the same cell
value as `no_throw_value_at_xy_of(p)`. -/
theorem raster_value_at_correct {α : Type} [Inhabited α]
    (r : spatial.Raster α) (p : spatial.point_3d_t) :
    (r.has_value_at_xy_of p = true ↔
      ((∃ qx, p.x = spatial.Coord.fin qx ∧ r.x_min ≤ qx ∧ qx ≤ r.x_max) ∧
        (∃ qy, p.y = spatial.Coord.fin qy ∧ r.y_min ≤ qy ∧ qy ≤ r.y_max))) ∧
    ((p.x.isNaN || p.y.isNaN) = true →
      r.value_at_xy_of p = .error .invalidCoordinate) ∧
    ((p.x.isNaN || p.y.isNaN) = false → r.has_value_at_xy_of p = false →
      r.value_at_xy_of p = .error .outOfExtent) ∧
    (∀ qx qy, p.x = spatial.Coord.fin qx → p.y = spatial.Coord.fin qy →
      r.has_value_at_xy_of p = true →
      r.value_at_xy_of p = .ok (r.no_throw_value_at_xy_of qx qy)) := by
  refine ⟨?_, ?_, ?_, ?_⟩
  · unfold spatial.Raster.has_value_at_xy_of
    cases hx : p.x <;> cases hy : p.y <;>
      simp [spatial.Coord.cle, and_assoc]
  · intro hna
    unfold spatial.Raster.value_at_xy_of
    simp [hna]
  · intro hna hv
    unfold spatial.Raster.value_at_xy_of
    simp [hna, hv]
  · intro qx qy hx hy hv
    unfold spatial.Raster.value_at_xy_of
    simp [hx, hy, spatial.Coord.isNaN, hv, spatial.Coord.toQ]

/-- Witness for C5: a concrete 1×1 raster over [0,2]×[0,2] and the interior
point (1, 1): the checked lookup returns the unchecked one's value. -/
theorem raster_value_at_correct_witness :
    (spatial.Raster.mk [(10 : ℚ)] 1 1 0 2 0 2).value_at_xy_of
        ⟨.fin 1, .fin 1, .fin 0⟩ =
      .ok ((spatial.Raster.mk [(10 : ℚ)] 1 1 0 2 0 2).no_throw_value_at_xy_of
        1 1) :=
  (raster_value_at_correct ⟨[(10 : ℚ)], 1, 1, 0, 2, 0, 2⟩
      ⟨.fin 1, .fin 1, .fin 0⟩).2.2.2 1 1 rfl rfl (by decide)

/-- The size_t cast-then-clamp of the C++ index computation agrees with the
clamp done on the integer floor, for a nonnegative floor. -/
theorem toNat_clamp_comm (f : ℤ) (n : ℕ) (hf : 0 ≤ f) :
    (if f.toNat = n then f.toNat - 1 else f.toNat) =
      (if f = (n : ℤ) then (n : ℤ) - 1 else f).toNat := by
  split <;> split <;> omega

/-- C6: for every grid Raster and every point p with finite x and y inside
the closed extent, `no_throw_value_at_xy_of(p)` returns
`values[num_cols · row_index + col_index]` where
`row_index = ⌊(y_max − p.y)/row_height⌋` decremented by one exactly when it
equals num_rows (the y = y_min case), and
`col_index = ⌊(p.x − x_min)/col_width⌋` decremented by one exactly when it
equals num_cols (the x = x_max case).  (The raster is assumed well-formed per
the data-model invariant: nonempty grid and nondegenerate extent.) -/
theorem raster_no_throw_index_correct {α : Type} [Inhabited α]
    (r : spatial.Raster α) (x y : ℚ)
    (hrows : 0 < r.num_rows) (hcols : 0 < r.num_cols)
    (hxlt : r.x_min < r.x_max) (hylt : r.y_min < r.y_max)
    (hx1 : r.x_min ≤ x) (hx2 : x ≤ r.x_max)
    (hy1 : r.y_min ≤ y) (hy2 : y ≤ r.y_max) :
    r.no_throw_value_at_xy_of x y =
      r.values.getD
        (r.num_cols *
            (if ⌊(r.y_max - y) / r.row_height⌋ = (r.num_rows : ℤ) then
                (r.num_rows : ℤ) - 1
              else ⌊(r.y_max - y) / r.row_height⌋).toNat +
          (if ⌊(x - r.x_min) / r.col_width⌋ = (r.num_cols : ℤ) then
              (r.num_cols : ℤ) - 1
            else ⌊(x - r.x_min) / r.col_width⌋).toNat)
        default := by
  have hrh : 0 < r.row_height := by
    rw [spatial.Raster.row_height]
    exact div_pos (by linarith) (by exact_mod_cast hrows)
  have hcw : 0 < r.col_width := by
    rw [spatial.Raster.col_width]
    exact div_pos (by linarith) (by exact_mod_cast hcols)
  have hfy : 0 ≤ ⌊(r.y_max - y) / r.row_height⌋ :=
    Int.floor_nonneg.mpr (div_nonneg (by linarith) hrh.le)
  have hfx : 0 ≤ ⌊(x - r.x_min) / r.col_width⌋ :=
    Int.floor_nonneg.mpr (div_nonneg (by linarith) hcw.le)
  simp only [spatial.Raster.no_throw_value_at_xy_of, spatial.Raster.flat_index_of]
  rw [toNat_clamp_comm _ _ hfy, toNat_clamp_comm _ _ hfx]

/-- Witness for C6: in the 2×3 raster over [0,3]×[0,2] with values 1..6, the
unchecked lookup at (1/2, 1/2) lands in row 1, column 0, i.e. cell value 4. -/
theorem raster_no_throw_index_correct_witness :
    (spatial.Raster.mk [(1 : ℚ), 2, 3, 4, 5, 6] 2 3 0 3 0 2).no_throw_value_at_xy_of
        (1 / 2) (1 / 2) = 4 := by
  have h := raster_no_throw_index_correct
      (spatial.Raster.mk [(1 : ℚ), 2, 3, 4, 5, 6] 2 3 0 3 0 2) (1 / 2) (1 / 2)
      (by norm_num) (by norm_num) (by norm_num) (by norm_num)
      (by norm_num) (by norm_num) (by norm_num) (by norm_num)
  rw [h]
  norm_num [spatial.Raster.row_height, spatial.Raster.col_width, List.getD]

/-- C10: for every grid Raster constructed with num_rows ≥ 1, num_cols ≥ 1,
values.size() = num_rows·num_cols, x_min < x_max, and y_min < y_max, and
every point p with finite x and y for which `has_value_at_xy_of(p)` is true,
the flat index `num_cols · row_index + col_index` computed by
`no_throw_value_at_xy_of` (after the two clamping decrements) is strictly
less than values.size(), so the value access stays in bounds. -/
theorem raster_flat_index_in_bounds {α : Type}
    (r : spatial.Raster α) (x y z : ℚ)
    (hrows : 1 ≤ r.num_rows) (hcols : 1 ≤ r.num_cols)
    (hlen : r.values.length = r.num_rows * r.num_cols)
    (hxlt : r.x_min < r.x_max) (hylt : r.y_min < r.y_max)
    (hv : r.has_value_at_xy_of ⟨.fin x, .fin y, .fin z⟩ = true) :
    r.flat_index_of x y < r.values.length := by
  rw [spatial.Raster.has_value_at_xy_of] at hv
  simp only [Bool.and_eq_true, spatial.Coord.cle, decide_eq_true_eq] at hv
  obtain ⟨⟨⟨hx1, hx2⟩, hy1⟩, hy2⟩ := hv
  have hrh : 0 < r.row_height := by
    rw [spatial.Raster.row_height]
    exact div_pos (by linarith) (by exact_mod_cast hrows)
  have hcw : 0 < r.col_width := by
    rw [spatial.Raster.col_width]
    exact div_pos (by linarith) (by exact_mod_cast hcols)
  have hfy : 0 ≤ ⌊(r.y_max - y) / r.row_height⌋ :=
    Int.floor_nonneg.mpr (div_nonneg (by linarith) hrh.le)
  have hfx : 0 ≤ ⌊(x - r.x_min) / r.col_width⌋ :=
    Int.floor_nonneg.mpr (div_nonneg (by linarith) hcw.le)
  have hqy : (r.y_max - y) / r.row_height ≤ (r.num_rows : ℚ) := by
    rw [div_le_iff hrh]
    have hprod : (r.num_rows : ℚ) * r.row_height = r.y_max - r.y_min := by
      rw [spatial.Raster.row_height]
      have hnr : (r.num_rows : ℚ) ≠ 0 := by
        exact_mod_cast Nat.pos_iff_ne_zero.mp hrows
      field_simp
    rw [hprod]
    linarith
  have hqx : (x - r.x_min) / r.col_width ≤ (r.num_cols : ℚ) := by
    rw [div_le_iff hcw]
    have hprod : (r.num_cols : ℚ) * r.col_width = r.x_max - r.x_min := by
      rw [spatial.Raster.col_width]
      have hnc : (r.num_cols : ℚ) ≠ 0 := by
        exact_mod_cast Nat.pos_iff_ne_zero.mp hcols
      field_simp
    rw [hprod]
    linarith
  have hfy_le : ⌊(r.y_max - y) / r.row_height⌋ ≤ (r.num_rows : ℤ) := by
    have := Int.floor_mono hqy
    simpa using this
  have hfx_le : ⌊(x - r.x_min) / r.col_width⌋ ≤ (r.num_cols : ℤ) := by
    have := Int.floor_mono hqx
    simpa using this
  rw [hlen]
  simp only [spatial.Raster.flat_index_of]
  have hrow : (if (⌊(r.y_max - y) / r.row_height⌋).toNat = r.num_rows then
      (⌊(r.y_max - y) / r.row_height⌋).toNat - 1
    else (⌊(r.y_max - y) / r.row_height⌋).toNat) ≤ r.num_rows - 1 := by
    split <;> omega
  have hcol : (if (⌊(x - r.x_min) / r.col_width⌋).toNat = r.num_cols then
      (⌊(x - r.x_min) / r.col_width⌋).toNat - 1
    else (⌊(x - r.x_min) / r.col_width⌋).toNat) ≤ r.num_cols - 1 := by
    split <;> omega
  have hmul := Nat.mul_le_mul_left r.num_cols hrow
  have hkey : r.num_cols * (r.num_rows - 1) + (r.num_cols - 1) + 1 =
      r.num_rows * r.num_cols := by
    cases hR : r.num_rows with
    | zero => omega
    | succ m =>
      cases hC : r.num_cols with
      | zero => omega
      | succ k =>
        simp only [Nat.succ_sub_one]
        ring
  omega

/-- Witness for C10: the concrete 2×3 raster over [0,3]×[0,2] at interior
point (1/2, 1/2): the flat index stays below the six stored values. -/
theorem raster_flat_index_in_bounds_witness :
    (spatial.Raster.mk [(1 : ℚ), 2, 3, 4, 5, 6] 2 3 0 3 0 2).flat_index_of
        (1 / 2) (1 / 2) <
      (spatial.Raster.mk [(1 : ℚ), 2, 3, 4, 5, 6] 2 3 0 3 0 2).values.length :=
  raster_flat_index_in_bounds
    (spatial.Raster.mk [(1 : ℚ), 2, 3, 4, 5, 6] 2 3 0 3 0 2) (1 / 2) (1 / 2) 0
    (by norm_num) (by norm_num) (by norm_num) (by norm_num) (by norm_num)
    (by norm_num [spatial.Raster.has_value_at_xy_of, spatial.Coord.cle])
